import Mathlib

/-!
Verification of the exact Gomoku solver in `assignment2/gtp_connection.py`:
the negamax searcher `alphabeta_tt` with transposition table, the move
orderer `orderMoves`, the driver `iterativeDeepening`, the GTP `solve`
entry point `solve_cmd`, and the coordinate helpers `format_point` /
`move_to_coord` / `point_to_coord`.

The board class and `board_util` module are not part of the sources;
following §6 of the specification the board is modelled as an abstract
interface `GameOps` exposing legal-move enumeration, move apply/undo,
terminal-state detection, static evaluation, a position fingerprint, the
side to move and a deep copy.  The searcher mutates a single shared board
via strictly nested apply/undo pairs; the embedding makes this explicit by
threading the board state: every search function also returns the board it
leaves behind.
-/

section Solver

variable {S : Type}

/-- Modelled from the spec (§4.4): the `hashTable` class is not in the
sources.  It keeps two separate associative stores, one for outcome values
(`storeScore`) and one for best moves (`storeMove`); storing always
overwrites (last write wins).  `lookup` returns the `(value, best move)`
entry when a value has been recorded for the fingerprint. -/
structure TT where
  scores : Nat → Option Int
  moves : Nat → Option Nat

def TT.storeScore (tt : TT) (h : Nat) (v : Int) : TT :=
  { tt with scores := fun h' => if h' = h then some v else tt.scores h' }

def TT.storeMove (tt : TT) (h : Nat) (m : Nat) : TT :=
  { tt with moves := fun h' => if h' = h then some m else tt.moves h' }

def TT.lookup (tt : TT) (h : Nat) : Option (Int × Option Nat) :=
  (tt.scores h).map (fun v => (v, tt.moves h))

def TT.empty : TT :=
  { scores := fun _ => none, moves := fun _ => none }

/-- Modelled from the spec (§6): the board abstraction consumed by the
solver.  The fields are named after the methods the source calls on the
board.  `play_move` takes only the move because the solver always plays for
`current_player`; in the functional embedding it returns the mutated board
and `undoMove` returns the board with the last move retracted.  The two
laws record the contract of §6: apply/undo are matching, strictly nested
pairs, and `copy` produces an identical board (a deep copy of a pure value
is the value itself). -/
structure GameOps (S : Type) where
  size : S → Nat
  get_empty_points : S → List Nat
  play_move : S → Nat → S
  undoMove : S → S
  endOfGame : S → Bool
  staticallyEvaluateForToPlay : S → Int
  hash : S → Nat
  current_player : S → Nat
  copy : S → S
  undo_play : ∀ s m, undoMove (play_move s m) = s
  copy_eq : ∀ s, copy s = s

/-- Modelled from the spec: `board_util.INFINITY`, the bound used for the
full (−∞, +∞) alpha-beta window and as the unused `depthMove` argument. -/
def INFINITY : Int := 1000000

/-- Modelled from the spec: `board_util.BLACK`. -/
def BLACK : Nat := 1

/-- Modelled from the spec: `board_util.WHITE`. -/
def WHITE : Nat := 2

/-- Modelled from the spec: `GoBoardUtil.opponent`. -/
def opponent (c : Nat) : Nat := if c = BLACK then WHITE else BLACK

/-- One insertion step of `orderMoves` (lines 450-462): scan while the
recorded heuristic is strictly greater than the new one and insert there,
i.e. the new pair is placed before the first entry whose score is ≤ `h`. -/
def insertMove : List (Nat × Int) → Nat → Int → List (Nat × Int)
  | [], m, h => [(m, h)]
  | x :: xs, m, h =>
    if h < x.2 then x :: insertMove xs m h else (m, h) :: x :: xs

/-- The loop of `orderMoves` (lines 447-463): for each empty point, play
it, statically evaluate the child for its side to move, undo, and insert
the `(move, heuristic)` pair with `insertMove`. -/
def orderMoves_loop (O : GameOps S) :
    List Nat → List (Nat × Int) → S → List (Nat × Int) × S
  | [], acc, st => (acc, st)
  | m :: ms, acc, st =>
    let st1 := O.play_move st m
    let h := O.staticallyEvaluateForToPlay st1
    orderMoves_loop O ms (insertMove acc m h) (O.undoMove st1)

/-- `orderMoves` (lines 445-464). -/
def orderMoves (O : GameOps S) (s : S) : List (Nat × Int) × S :=
  orderMoves_loop O (O.get_empty_points s) [] s

/-- The terminal/limit case of `alphabeta_tt` (lines 420-422): statically
evaluate for the side to move, store the score and return it. -/
def leafEval (O : GameOps S) (s : S) (tt : TT) : Int × TT × S :=
  let v := O.staticallyEvaluateForToPlay s
  (v, TT.storeScore tt (O.hash s) v, s)

/-- The move loop of `alphabeta_tt` (lines 429-443).  `recur` is the
recursive evaluation of a child at the next depth.  For each ordered move:
play it, evaluate the child with the negated and swapped window, negate the
result back, record it as best move when it improves alpha with a proven
draw or win magnitude, undo the move, store beta and return on a beta
cutoff, otherwise continue with the possibly improved alpha.  The final
return stores and yields alpha (line 443). -/
def abLoop (O : GameOps S) (recur : S → Int → Int → TT → Int × TT × S) :
    List (Nat × Int) → S → Int → Int → TT → Int × TT × S
  | [], s, alpha, _beta, tt => (alpha, TT.storeScore tt (O.hash s) alpha, s)
  | (m, _h) :: rest, s, alpha, beta, tt =>
    let s1 := O.play_move s m
    let r := recur s1 (-beta) (-alpha) tt
    let value := -r.1
    let s2 := O.undoMove r.2.2
    let tt2 :=
      if value > alpha ∧ (value = 0 ∨ value = 5) then
        TT.storeMove r.2.1 (O.hash s2) m
      else r.2.1
    let alpha2 := if value > alpha then value else alpha
    if value ≥ beta then (beta, TT.storeScore tt2 (O.hash s2) beta, s2)
    else abLoop O recur rest s2 alpha2 beta tt2

/-- `alphabeta_tt` (lines 415-443), with the pair (`depth`, `depthLimit`)
of the source replaced by the remaining depth `rem = depthLimit - depth`;
every call in the source keeps `depth ≤ depthLimit`, and under that
invariant `depth == depthLimit` is exactly `rem = 0`.  The unused
`depthMove` argument of the source is dropped.  The boolean
`endOfGame or depth == depthLimit` guard of line 420 appears here as the
`rem` pattern match together with the `endOfGame` test.  A table hit whose
recorded value is `5` is returned at once (lines 416-419); any other
recorded value, including a proven loss `-5`, falls through. -/
def alphabeta_tt (O : GameOps S) :
    Nat → S → Int → Int → TT → Int × TT × S
  | 0, s, _alpha, _beta, tt =>
    if (TT.lookup tt (O.hash s)).map Prod.fst = some 5 then (5, tt, s)
    else leafEval O s tt
  | rem + 1, s, alpha, beta, tt =>
    if (TT.lookup tt (O.hash s)).map Prod.fst = some 5 then (5, tt, s)
    else if O.endOfGame s then leafEval O s tt
    else
      let om := orderMoves O s
      abLoop O (fun s1 a b t => alphabeta_tt O rem s1 a b t) om.1 om.2 alpha beta tt

/-- The loop of `iterativeDeepening` (lines 400-405) over the list of depth
limits, threading the board and the transposition table. -/
def iterativeDeepening_loop (O : GameOps S) :
    List Nat → Int → S → TT → Int × TT × S
  | [], res, s, tt => (res, tt, s)
  | d :: ds, _res, s, tt =>
    let r := alphabeta_tt O d s (-INFINITY) INFINITY tt
    if r.1 = 5 ∨ r.1 = -5 then r
    else iterativeDeepening_loop O ds r.1 r.2.2 r.2.1

/-- `iterativeDeepening` (lines 399-405): run `alphabeta_tt` with the full
window for depth limits 1 .. number of empty points, stopping at the first
decisive (±5) value; the loop accumulator starts at 1. -/
def iterativeDeepening (O : GameOps S) (s : S) (tt : TT) : Int × TT × S :=
  iterativeDeepening_loop O (List.range' 1 (O.get_empty_points s).length) 1 s tt

/-- The sequence of full-window `alphabeta_tt` invocations the driver
performs on the (restored) root board, threading only the transposition
table: `idSeq O s tt d` is the value and table after the invocation with
depth limit `d`; index 0 is the loop accumulator's initial value 1 with the
initial table. -/
def idSeq (O : GameOps S) (s : S) (tt : TT) : Nat → Int × TT
  | 0 => (1, tt)
  | d + 1 =>
    let prev := idSeq O s tt d
    let r := alphabeta_tt O (d + 1) s (-INFINITY) INFINITY prev.2
    (r.1, r.2.1)

/-- A GTP move as handled by `format_point` / `move_to_coord`: the
distinguished pass value (`board_util.PASS`, which is Python `None`) or a
`(row, col)` coordinate pair.  Coordinates are integers because the source
works with Python ints and `format_point` range-checks them. -/
inductive GtpMove where
  | pass
  | rc (row : Int) (col : Int)
deriving DecidableEq, Repr

/-- Modelled from the spec: `board_util.MAXSIZE`; `format_point` asserts
`MAXSIZE <= 25` and the column-letter string has 25 letters. -/
def MAXSIZE : Nat := 25

def column_letters : List Char :=
  ['A', 'B', 'C', 'D', 'E', 'F', 'G', 'H', 'J', 'K', 'L', 'M',
   'N', 'O', 'P', 'Q', 'R', 'S', 'T', 'U', 'V', 'W', 'X', 'Y', 'Z']

/-- `point_to_coord` (lines 525-535): a pass is not transformed, otherwise
`divmod point (boardsize + 1)` gives `(row, col)`.  The point argument is
`Option Nat` because the stored move may be Python `None` (= `PASS`). -/
def point_to_coord (point : Option Nat) (boardsize : Nat) : GtpMove :=
  match point with
  | none => GtpMove.pass
  | some pt => GtpMove.rc (pt / (boardsize + 1) : Nat) (pt % (boardsize + 1) : Nat)

/-- `format_point` (lines 538-549): `none` models the raised `ValueError`.
The source indexes `column_letters[col - 1]`; for `col = 0` Python's
negative indexing yields the last letter `Z`, which the embedding makes
explicit. -/
def format_point : GtpMove → Option String
  | GtpMove.pass => some "PASS"
  | GtpMove.rc row col =>
    if 0 ≤ row ∧ row < (MAXSIZE : Int) ∧ 0 ≤ col ∧ col < (MAXSIZE : Int) then
      let letter :=
        if col = 0 then 'Z' else column_letters.getD (col - 1).toNat 'A'
      some (String.mk [letter] ++ toString row)
    else none

/-- ASCII lowercasing of one character, as Python's `str.lower` acts on the
letters this protocol uses. -/
def toLowerChar (c : Char) : Char :=
  if 'A' ≤ c ∧ c ≤ 'Z' then
    ['a', 'b', 'c', 'd', 'e', 'f', 'g', 'h', 'i', 'j', 'k', 'l', 'm',
     'n', 'o', 'p', 'q', 'r', 's', 't', 'u', 'v', 'w', 'x', 'y',
     'z'].getD (c.toNat - 'A'.toNat) c
  else c

/-- Decimal parsing of a character list: `some` exactly on the nonempty
all-digit strings, the values Python's `int` accepts among the strings this
program produces (`int` additionally tolerates signs and whitespace, which
never occur here). -/
def charsToNat? (cs : List Char) : Option Nat :=
  if cs ≠ [] ∧ cs.all (fun c => c.isDigit) then
    some (cs.foldl (fun n c => n * 10 + (c.toNat - '0'.toNat)) 0)
  else none

/-- `move_to_coord` (lines 552-577): `none` models the raised `ValueError`.
The input is lowercased, compared against "pass", split into the column
letter (rejecting anything outside a..z and the skipped letter i, with
letters before i shifted by one) and the row number, which must be at least
1; both coordinates must then be within the board size. -/
def move_to_coord (point_str : String) (board_size : Nat) : Option GtpMove :=
  if ¬(2 ≤ board_size ∧ board_size ≤ MAXSIZE) then none
  else
    let sChars := point_str.data.map toLowerChar
    if sChars = ['p', 'a', 's', 's'] then some GtpMove.pass
    else
      match sChars with
      | [] => none
      | col_c :: restChars =>
        if ¬('a' ≤ col_c ∧ col_c ≤ 'z') ∨ col_c = 'i' then none
        else
          let col0 := col_c.toNat - 'a'.toNat
          let col := if col_c < 'i' then col0 + 1 else col0
          match charsToNat? restChars with
          | none => none
          | some row =>
            if row < 1 then none
            else if ¬(col ≤ board_size ∧ row ≤ board_size) then none
            else some (GtpMove.rc (row : Nat) (col : Nat))

/-- The state a `solve` invocation touches: the connection's live board and
the transposition table the board object owns (`board.hashTable`). -/
structure Conn (S : Type) where
  board : S
  tt : TT

/-- `solve_cmd` (lines 367-397) together with the alarm `handler`
(lines 522-523).  Real time is modelled by two inputs: `timeBudget` is
`self.time`, and `overruns` says whether the search would run past the
budget.  Python's `signal.alarm(t)` schedules no alarm when `t = 0`, so the
deadline can only fire when `timeBudget ≠ 0` and the search overruns; the
raised `OSError` is caught by the bare `except`, which responds "unknown"
(suppressed while `genMoveRunning`).  Otherwise the search runs to
completion on a copy of the board with the shared table, `updateHash`
carries the table of the copy back to the live board, and the recorded best
move for the live board's fingerprint is formatted; a missing table entry
(`None[1]`, a `TypeError`) or a `ValueError` from `format_point` is caught
by the same bare `except` and yields "unknown".  The first component is the
text passed to `respond` (`none` while `genMoveRunning`), the second the
connection state after the call. -/
def solveModel (O : GameOps S) (conn : Conn S) (timeBudget : Nat)
    (overruns : Bool) (genMoveRunning : Bool) : Option String × Conn S :=
  if timeBudget ≠ 0 ∧ overruns = true then
    ((if genMoveRunning then none else some "unknown"), conn)
  else
    let board_copy := O.copy conn.board
    let current_player := O.current_player board_copy
    let sr := iterativeDeepening O board_copy conn.tt
    let result := sr.1
    let conn1 : Conn S := { board := conn.board, tt := sr.2.1 }
    match TT.lookup sr.2.1 (O.hash conn.board) with
    | none => ((if genMoveRunning then none else some "unknown"), conn1)
    | some entry =>
      match format_point (point_to_coord entry.2 (O.size board_copy)) with
      | none => ((if genMoveRunning then none else some "unknown"), conn1)
      | some move =>
        let resp :=
          if result = 5 ∧ current_player = BLACK then "b " ++ move
          else if result = 5 ∧ current_player = WHITE then "w " ++ move
          else if result = -5 ∧ current_player = BLACK then "w"
          else if result = -5 ∧ current_player = WHITE then "b"
          else "draw " ++ move
        ((if genMoveRunning then none else some resp), conn1)

/-- A small concrete board model used to evaluate the solver on explicit
inputs: the state is the stack of played moves, `play_move` pushes,
`undoMove` pops, and the fingerprint is the stack height.  The remaining
behaviour (legal moves, terminal test, static evaluation, side to move) is
supplied per scenario. -/
def mkToy (sz : Nat) (empties : List Nat → List Nat) (eog : List Nat → Bool)
    (ev : List Nat → Int) (pl : Nat) : GameOps (List Nat) :=
  { size := fun _ => sz
    get_empty_points := empties
    play_move := fun s m => m :: s
    undoMove := fun s => s.tail
    endOfGame := eog
    staticallyEvaluateForToPlay := ev
    hash := fun s => s.length
    current_player := fun _ => pl
    copy := fun s => s
    undo_play := fun _ _ => rfl
    copy_eq := fun _ => rfl }

/-- Scenario: a quiet position whose static evaluation is 0 everywhere. -/
def toyQuiet : GameOps (List Nat) :=
  mkToy 4 (fun _ => []) (fun _ => false) (fun _ => 0) BLACK

/-- Scenario: two legal moves whose one-ply evaluations tie at 0. -/
def toyTie : GameOps (List Nat) :=
  mkToy 4 (fun s => if s = [] then [1, 2] else []) (fun _ => false) (fun _ => 0) BLACK

/-- Scenario: one legal move at the root, and after it is played the
position evaluates to -5 for the opponent, i.e. the mover wins. -/
def toyWin : GameOps (List Nat) :=
  mkToy 4 (fun s => if s = [] then [1] else []) (fun s => !s.isEmpty)
    (fun s => if s = [1] then -5 else 0) BLACK

/-- Scenario: a full terminal board (no empty points) that evaluates to -5
for the side to move. -/
def toyFullLoss : GameOps (List Nat) :=
  mkToy 4 (fun _ => []) (fun _ => true) (fun _ => -5) BLACK

/-- Scenario: a terminal board that still has one empty point (a completed
five-in-a-row), drawn static evaluation. -/
def toyTerminalDraw : GameOps (List Nat) :=
  mkToy 4 (fun s => if s = [] then [1] else []) (fun _ => true) (fun _ => 0) BLACK

/-- A table holding a proven-loss score (-5) for fingerprint 0. -/
def ttLoss : TT :=
  { scores := fun h => if h = 0 then some (-5) else none, moves := fun _ => none }

/-- A table holding a proven-win score (5) for fingerprint 0. -/
def ttWin : TT :=
  { scores := fun h => if h = 0 then some 5 else none, moves := fun _ => none }

/-- An empty-board connection state for the toy scenarios. -/
def connEmpty : Conn (List Nat) := { board := [], tt := TT.empty }

end Solver

section Lemmas

variable {S : Type}

lemma TT.lookup_map_fst (tt : TT) (h : Nat) :
    (TT.lookup tt h).map Prod.fst = tt.scores h := by
  cases hs : tt.scores h <;> simp [TT.lookup, hs]

lemma insertMove_eq_take_drop :
    ∀ (l : List (Nat × Int)) (m : Nat) (h : Int),
      insertMove l m h =
        l.takeWhile (fun x => decide (h < x.2)) ++
          (m, h) :: l.dropWhile (fun x => decide (h < x.2))
  | [], m, h => rfl
  | x :: xs, m, h => by
    by_cases hx : h < x.2 <;>
      simp [insertMove, List.takeWhile, List.dropWhile, hx,
        insertMove_eq_take_drop xs m h]

lemma insertMove_perm (l : List (Nat × Int)) (m : Nat) (h : Int) :
    List.Perm (insertMove l m h) ((m, h) :: l) := by
  induction l with
  | nil => simp [insertMove]
  | cons x xs ih =>
    rw [insertMove]
    by_cases hx : h < x.2
    · simp only [if_pos hx]
      exact (ih.cons x).trans (List.Perm.swap (m, h) x xs)
    · simp [if_neg hx]

lemma insertMove_sorted (m : Nat) (h : Int) :
    ∀ l : List (Nat × Int),
      List.Chain' (fun a b : Nat × Int => b.2 ≤ a.2) l →
      List.Chain' (fun a b : Nat × Int => b.2 ≤ a.2) (insertMove l m h)
  | [], _ => by simp [insertMove]
  | x :: xs, hc => by
    rw [insertMove]
    by_cases hx : h < x.2
    · simp only [if_pos hx]
      refine List.chain'_cons'.mpr ⟨?_, insertMove_sorted m h xs hc.tail⟩
      intro b hb
      cases xs with
      | nil =>
        simp [insertMove] at hb
        subst hb
        exact le_of_lt hx
      | cons y ys =>
        rw [insertMove] at hb
        by_cases hy : h < y.2
        · simp only [if_pos hy, List.head?] at hb
          cases hb
          exact (List.chain'_cons.mp hc).1
        · simp only [if_neg hy, List.head?] at hb
          cases hb
          exact le_of_lt hx
    · simp only [if_neg hx]
      exact hc.cons (le_of_not_lt hx)

lemma foldl_insertMove_sorted (f : Nat → Int) :
    ∀ (l : List Nat) (acc : List (Nat × Int)),
      List.Chain' (fun a b : Nat × Int => b.2 ≤ a.2) acc →
      List.Chain' (fun a b : Nat × Int => b.2 ≤ a.2)
        (l.foldl (fun a m => insertMove a m (f m)) acc)
  | [], _, hacc => hacc
  | m :: ms, acc, hacc => by
    simpa using
      foldl_insertMove_sorted f ms (insertMove acc m (f m))
        (insertMove_sorted m (f m) acc hacc)

lemma foldl_insertMove_perm (f : Nat → Int) :
    ∀ (l : List Nat) (acc : List (Nat × Int)),
      List.Perm (l.foldl (fun a m => insertMove a m (f m)) acc)
        (l.map (fun m => (m, f m)) ++ acc)
  | [], acc => by simp
  | m :: ms, acc => by
    have ih := foldl_insertMove_perm f ms (insertMove acc m (f m))
    have h1 : List.Perm (ms.map (fun m => (m, f m)) ++ insertMove acc m (f m))
        (ms.map (fun m => (m, f m)) ++ ((m, f m) :: acc)) :=
      List.Perm.append_left _ (insertMove_perm acc m (f m))
    have h2 : List.Perm (ms.map (fun m => (m, f m)) ++ ((m, f m) :: acc))
        ((m, f m) :: (ms.map (fun m => (m, f m)) ++ acc)) :=
      List.perm_middle
    simpa using (ih.trans h1).trans h2

lemma orderMoves_loop_eq (O : GameOps S) :
    ∀ (ms : List Nat) (acc : List (Nat × Int)) (st : S),
      orderMoves_loop O ms acc st =
        (ms.foldl
          (fun a m => insertMove a m (O.staticallyEvaluateForToPlay (O.play_move st m)))
          acc, st)
  | [], acc, st => rfl
  | m :: ms, acc, st => by
    rw [orderMoves_loop]
    simp only [O.undo_play]
    rw [orderMoves_loop_eq O ms _ st]
    rfl

lemma orderMoves_state (O : GameOps S) (s : S) : (orderMoves O s).2 = s := by
  rw [orderMoves, orderMoves_loop_eq O]

lemma orderMoves_fst (O : GameOps S) (s : S) :
    (orderMoves O s).1 =
      (O.get_empty_points s).foldl
        (fun a m => insertMove a m (O.staticallyEvaluateForToPlay (O.play_move s m))) [] := by
  rw [orderMoves, orderMoves_loop_eq O]

lemma abLoop_restores (O : GameOps S) (recur : S → Int → Int → TT → Int × TT × S)
    (hrec : ∀ s' a b t, (recur s' a b t).2.2 = s') :
    ∀ (ms : List (Nat × Int)) (s : S) (alpha beta : Int) (tt : TT),
      (abLoop O recur ms s alpha beta tt).2.2 = s
  | [], _, _, _, _ => rfl
  | (m, h) :: rest, s, alpha, beta, tt => by
    have hs2 : O.undoMove (recur (O.play_move s m) (-beta) (-alpha) tt).2.2 = s := by
      rw [hrec, O.undo_play]
    rw [abLoop]
    simp only [hs2]
    split
    · rfl
    · exact abLoop_restores O recur hrec rest s _ beta _

lemma alphabeta_tt_state (O : GameOps S) :
    ∀ (rem : Nat) (s : S) (alpha beta : Int) (tt : TT),
      (alphabeta_tt O rem s alpha beta tt).2.2 = s
  | 0, s, alpha, beta, tt => by
    rw [alphabeta_tt]
    split
    · rfl
    · rfl
  | rem + 1, s, alpha, beta, tt => by
    rw [alphabeta_tt]
    split
    · rfl
    split
    · rfl
    · simp only [orderMoves_state O s]
      exact abLoop_restores O _
        (fun s' a b t => alphabeta_tt_state O rem s' a b t) _ s alpha beta tt

lemma iterativeDeepening_loop_eq (O : GameOps S) (s : S) (tt : TT) :
    ∀ (m k : Nat),
      iterativeDeepening_loop O (List.range' (k + 1) m) (idSeq O s tt k).1 s
          (idSeq O s tt k).2 =
        match (List.range' (k + 1) m).find?
            (fun d => decide ((idSeq O s tt d).1 = 5 ∨ (idSeq O s tt d).1 = -5)) with
        | some d => ((idSeq O s tt d).1, (idSeq O s tt d).2, s)
        | none => ((idSeq O s tt (k + m)).1, (idSeq O s tt (k + m)).2, s)
  | 0, k => by simp [iterativeDeepening_loop]
  | m + 1, k => by
    have h1 : (alphabeta_tt O (k + 1) s (-INFINITY) INFINITY (idSeq O s tt k).2).1 =
        (idSeq O s tt (k + 1)).1 := rfl
    have h2 : (alphabeta_tt O (k + 1) s (-INFINITY) INFINITY (idSeq O s tt k).2).2.1 =
        (idSeq O s tt (k + 1)).2 := rfl
    have h3 : (alphabeta_tt O (k + 1) s (-INFINITY) INFINITY (idSeq O s tt k).2).2.2 = s :=
      alphabeta_tt_state O (k + 1) s _ _ _
    rw [List.range'_succ, iterativeDeepening_loop]
    by_cases hd : (idSeq O s tt (k + 1)).1 = 5 ∨ (idSeq O s tt (k + 1)).1 = -5
    · rw [h1, if_pos hd, List.find?_cons_of_pos _ (by simpa using hd)]
      exact Prod.ext h1 (Prod.ext h2 h3)
    · rw [h1, if_neg hd, List.find?_cons_of_neg _ (by simpa using hd), h2, h3]
      have := iterativeDeepening_loop_eq O s tt m (k + 1)
      rw [show k + 1 + m = k + (m + 1) by omega] at this
      exact this

lemma alphabeta_tt_terminal (O : GameOps S) (s : S) (d : Nat) (tt : TT)
    (hterm : O.endOfGame s = true) (htt : tt.scores (O.hash s) ≠ some 5) :
    alphabeta_tt O d s (-INFINITY) INFINITY tt =
      (O.staticallyEvaluateForToPlay s,
       TT.storeScore tt (O.hash s) (O.staticallyEvaluateForToPlay s), s) := by
  have hcut : ¬(TT.lookup tt (O.hash s)).map Prod.fst = some 5 := by
    rw [TT.lookup_map_fst]; exact htt
  cases d with
  | zero => rw [alphabeta_tt, if_neg hcut]; rfl
  | succ d' => rw [alphabeta_tt, if_neg hcut, hterm]; rfl

lemma iterativeDeepening_loop_terminal (O : GameOps S) (s : S)
    (hterm : O.endOfGame s = true) (h5 : O.staticallyEvaluateForToPlay s ≠ 5)
    (hm5 : O.staticallyEvaluateForToPlay s ≠ -5) :
    ∀ (ds : List Nat) (tt : TT), tt.scores (O.hash s) ≠ some 5 →
      (iterativeDeepening_loop O ds (O.staticallyEvaluateForToPlay s) s tt).1 =
        O.staticallyEvaluateForToPlay s
  | [], _, _ => rfl
  | d :: ds, tt, htt => by
    rw [iterativeDeepening_loop, alphabeta_tt_terminal O s d tt hterm htt]
    simp only []
    rw [if_neg (by tauto)]
    refine iterativeDeepening_loop_terminal O s hterm h5 hm5 ds _ ?_
    simp [TT.storeScore, h5]

end Lemmas

section Claims

variable {S : Type}

/-- C1: for every starting state, `iterativeDeepening` invokes
`alphabeta_tt` with the full window (−INFINITY, INFINITY) for depth limits
d = 1 up to the number of empty points (the sequence `idSeq`, which threads
the transposition table through the full-window invocations on the restored
root board); if some invocation returns a decisive value (5 or -5) the
driver stops at the first such depth and returns that invocation's result,
and otherwise it returns the result of the final (deepest) invocation
(index 0 of `idSeq` is the loop accumulator 1, returned when there are no
empty points and hence no invocations). -/
theorem iterativeDeepening_first_decisive (O : GameOps S) (s : S) (tt : TT) :
    iterativeDeepening O s tt =
      match (List.range' 1 (O.get_empty_points s).length).find?
          (fun d => decide ((idSeq O s tt d).1 = 5 ∨ (idSeq O s tt d).1 = -5)) with
      | some d => ((idSeq O s tt d).1, (idSeq O s tt d).2, s)
      | none =>
        ((idSeq O s tt (O.get_empty_points s).length).1,
         (idSeq O s tt (O.get_empty_points s).length).2, s) := by
  have h := iterativeDeepening_loop_eq O s tt (O.get_empty_points s).length 0
  rw [iterativeDeepening]
  simpa [idSeq] using h

/-- C2, corrected: when `alphabeta_tt` finds a transposition-table entry
for the state's fingerprint, only a recorded value of exactly 5 (a proven
win) is returned immediately, for every depth limit; any other recorded
value — including a proven loss -5 — is ignored and the node is evaluated
or expanded exactly as if the test had not fired. -/
theorem alphabeta_tt_lookup_cutoff (O : GameOps S) (rem : Nat) (s : S)
    (alpha beta : Int) (tt : TT) (v : Int) (mv : Option Nat)
    (hl : TT.lookup tt (O.hash s) = some (v, mv)) :
    (v = 5 → alphabeta_tt O rem s alpha beta tt = (5, tt, s)) ∧
    (v ≠ 5 →
      alphabeta_tt O rem s alpha beta tt =
        match rem with
        | 0 => leafEval O s tt
        | rem' + 1 =>
          if O.endOfGame s then leafEval O s tt
          else
            abLoop O (fun s1 a b t => alphabeta_tt O rem' s1 a b t)
              (orderMoves O s).1 (orderMoves O s).2 alpha beta tt) := by
  constructor
  · intro h5
    cases rem <;>
      rw [alphabeta_tt, if_pos (by rw [hl, h5]; rfl)]
  · intro h5
    have hcut : ¬(TT.lookup tt (O.hash s)).map Prod.fst = some 5 := by
      rw [hl]
      simpa using h5
    cases rem <;> rw [alphabeta_tt, if_neg hcut]

/-- C2, counterexample to the claim as stated: a table entry recording the
proven loss -5 for the current fingerprint is not returned; the searcher
falls through to the static evaluation (0 here) instead of -5. -/
theorem alphabeta_tt_ignores_stored_loss :
    TT.lookup ttLoss (toyQuiet.hash []) = some (-5, none) ∧
    (alphabeta_tt toyQuiet 0 [] (-INFINITY) INFINITY ttLoss).1 = 0 ∧
    (0 : Int) ≠ -5 := by
  refine ⟨by decide, ?_, by decide⟩
  decide

/-- Witness for `alphabeta_tt_lookup_cutoff` at a concrete input: a stored
5 is returned unchanged together with the untouched table and board. -/
theorem alphabeta_tt_lookup_cutoff_witness :
    TT.lookup ttWin (toyQuiet.hash []) = some (5, none) ∧
    alphabeta_tt toyQuiet 0 [] (-INFINITY) INFINITY ttWin = (5, ttWin, []) :=
  ⟨by decide,
   (alphabeta_tt_lookup_cutoff toyQuiet 0 [] (-INFINITY) INFINITY ttWin 5 none
      (by decide)).1 rfl⟩

/-- C4: in the move loop of `alphabeta_tt`, when the first candidate's
negated child value — obtained by playing the move and evaluating the child
recursively with the negated and swapped window (−beta, −alpha) — reaches
or exceeds beta, the loop stops without touching the remaining sibling
moves (`rest` does not occur in the result), stores beta (not the value
itself) in the transposition table under the node's own fingerprint, and
returns beta with the board restored. -/
theorem abLoop_beta_cutoff (O : GameOps S) (rem : Nat) (s : S)
    (alpha beta : Int) (tt : TT) (m : Nat) (hsc : Int) (rest : List (Nat × Int))
    (hv : beta ≤ -(alphabeta_tt O rem (O.play_move s m) (-beta) (-alpha) tt).1) :
    abLoop O (fun s1 a b t => alphabeta_tt O rem s1 a b t)
        ((m, hsc) :: rest) s alpha beta tt =
      (beta,
       TT.storeScore
         (if -(alphabeta_tt O rem (O.play_move s m) (-beta) (-alpha) tt).1 > alpha ∧
             (-(alphabeta_tt O rem (O.play_move s m) (-beta) (-alpha) tt).1 = 0 ∨
              -(alphabeta_tt O rem (O.play_move s m) (-beta) (-alpha) tt).1 = 5) then
            TT.storeMove (alphabeta_tt O rem (O.play_move s m) (-beta) (-alpha) tt).2.1
              (O.hash s) m
          else (alphabeta_tt O rem (O.play_move s m) (-beta) (-alpha) tt).2.1)
         (O.hash s) beta,
       s) := by
  have hs2 : O.undoMove
      (alphabeta_tt O rem (O.play_move s m) (-beta) (-alpha) tt).2.2 = s := by
    rw [alphabeta_tt_state, O.undo_play]
  rw [abLoop]
  simp only [hs2]
  rw [if_pos hv]

/-- Witness for `abLoop_beta_cutoff` at a concrete input: with window
(alpha, beta) = (0, 5) and a child worth -5 for the opponent, the negated
value 5 triggers the cutoff and the loop returns beta = 5. -/
theorem abLoop_beta_cutoff_witness :
    (5 : Int) ≤ -(alphabeta_tt toyWin 0 (toyWin.play_move [] 1) (-(5 : Int)) (-(0 : Int)) TT.empty).1 ∧
    (abLoop toyWin (fun s1 a b t => alphabeta_tt toyWin 0 s1 a b t)
        [(1, 0)] [] 0 5 TT.empty).1 = 5 := by
  refine ⟨by decide, ?_⟩
  rw [abLoop_beta_cutoff toyWin 0 [] 0 5 TT.empty 1 0 [] (by decide)]

/-- C5, corrected: `orderMoves` restores the board, and returns exactly the
legal (empty-point) moves paired with their one-ply static evaluations
(computed by applying the move, statically evaluating the child for its
side to move, and undoing), sorted by descending heuristic; but the
insertion is not stable: each new pair is inserted before the first entry
whose score is less than or equal to the new one (last conjunct), so among
moves with equal heuristic score the original board-enumeration order is
reversed, not preserved. -/
theorem orderMoves_spec (O : GameOps S) (s : S) :
    (orderMoves O s).2 = s ∧
    (orderMoves O s).1 =
      (O.get_empty_points s).foldl
        (fun acc m => insertMove acc m (O.staticallyEvaluateForToPlay (O.play_move s m)))
        [] ∧
    List.Chain' (fun a b : Nat × Int => b.2 ≤ a.2) (orderMoves O s).1 ∧
    List.Perm (orderMoves O s).1
      ((O.get_empty_points s).map
        (fun m => (m, O.staticallyEvaluateForToPlay (O.play_move s m)))) ∧
    (∀ (acc : List (Nat × Int)) (m : Nat) (h : Int),
      insertMove acc m h =
        acc.takeWhile (fun x => decide (h < x.2)) ++
          (m, h) :: acc.dropWhile (fun x => decide (h < x.2))) := by
  refine ⟨orderMoves_state O s, orderMoves_fst O s, ?_, ?_,
    fun acc m h => insertMove_eq_take_drop acc m h⟩
  · rw [orderMoves_fst O s]
    exact foldl_insertMove_sorted _ _ [] List.chain'_nil
  · rw [orderMoves_fst O s]
    simpa using foldl_insertMove_perm
      (fun m => O.staticallyEvaluateForToPlay (O.play_move s m)) (O.get_empty_points s) []

/-- C5, counterexample to the claim as stated: two legal moves 1 and 2 with
equal one-ply heuristic come back as [2, 1] — the board-enumeration order
[1, 2] is reversed among ties, not preserved. -/
theorem orderMoves_tie_reversed :
    toyTie.get_empty_points [] = [1, 2] ∧
    toyTie.staticallyEvaluateForToPlay (toyTie.play_move [] 1) =
      toyTie.staticallyEvaluateForToPlay (toyTie.play_move [] 2) ∧
    ((orderMoves toyTie []).1.map Prod.fst = [2, 1] ∧
     (orderMoves toyTie []).1.map Prod.fst ≠ [1, 2]) := by
  refine ⟨by decide, by decide, by decide, by decide⟩

/-- C6: a completed `alphabeta_tt` invocation leaves the board exactly as
it was before the invocation — every move applied during the search is
undone before return — and so does each apply/evaluate/undo probe pass of
the move orderer; consequently the board's fingerprint is unchanged. -/
theorem alphabeta_tt_restores_board (O : GameOps S) (rem : Nat) (s : S)
    (alpha beta : Int) (tt : TT) :
    (alphabeta_tt O rem s alpha beta tt).2.2 = s ∧
    (orderMoves O s).2 = s ∧
    O.hash (alphabeta_tt O rem s alpha beta tt).2.2 = O.hash s :=
  ⟨alphabeta_tt_state O rem s alpha beta tt, orderMoves_state O s,
   by rw [alphabeta_tt_state]⟩

/-- C8, corrected: the driver does invoke the searcher on a terminal root.
If the root is terminal but still has at least one empty point and the
table holds no proven-win entry for it, the first `alphabeta_tt` invocation
immediately returns the terminal static evaluation without expanding any
move (it only stores that score), and the driver's result is that terminal
evaluation (second conjunct exhibits the first invocation's exact result).
If the board is full (no empty points) the driver performs no invocation
and returns its initial accumulator 1, not the terminal evaluation — see
the counterexample. -/
theorem iterativeDeepening_terminal_root (O : GameOps S) (s : S) (tt : TT)
    (hterm : O.endOfGame s = true)
    (hn : 1 ≤ (O.get_empty_points s).length)
    (htt : tt.scores (O.hash s) ≠ some 5) :
    (iterativeDeepening O s tt).1 = O.staticallyEvaluateForToPlay s ∧
    alphabeta_tt O 1 s (-INFINITY) INFINITY tt =
      (O.staticallyEvaluateForToPlay s,
       TT.storeScore tt (O.hash s) (O.staticallyEvaluateForToPlay s), s) := by
  refine ⟨?_, alphabeta_tt_terminal O s 1 tt hterm htt⟩
  obtain ⟨n', hn'⟩ : ∃ n', (O.get_empty_points s).length = n' + 1 :=
    ⟨(O.get_empty_points s).length - 1, by omega⟩
  rw [iterativeDeepening, hn', List.range'_succ, iterativeDeepening_loop,
    alphabeta_tt_terminal O s 1 tt hterm htt]
  simp only []
  by_cases hdec : O.staticallyEvaluateForToPlay s = 5 ∨
      O.staticallyEvaluateForToPlay s = -5
  · rw [if_pos hdec]
  · rw [if_neg hdec]
    push_neg at hdec
    refine iterativeDeepening_loop_terminal O s hterm hdec.1 hdec.2 _ _ ?_
    simp [TT.storeScore, hdec.1]

/-- C8, counterexample to the claim as stated: a full terminal board whose
static evaluation is -5.  The driver performs no searcher invocation (no
empty points) and returns its initial accumulator 1, which is not the
terminal evaluation. -/
theorem iterativeDeepening_full_board_counterexample :
    toyFullLoss.endOfGame [] = true ∧
    toyFullLoss.get_empty_points [] = [] ∧
    toyFullLoss.staticallyEvaluateForToPlay [] = -5 ∧
    (iterativeDeepening toyFullLoss [] TT.empty).1 = 1 ∧
    (1 : Int) ≠ -5 := by
  refine ⟨by decide, by decide, by decide, by decide, by decide⟩

/-- Witness for `iterativeDeepening_terminal_root` at a concrete input: a
terminal root with one empty point and drawn evaluation yields 0. -/
theorem iterativeDeepening_terminal_root_witness :
    toyTerminalDraw.endOfGame [] = true ∧
    1 ≤ (toyTerminalDraw.get_empty_points []).length ∧
    TT.empty.scores (toyTerminalDraw.hash []) ≠ some 5 ∧
    (iterativeDeepening toyTerminalDraw [] TT.empty).1 =
      toyTerminalDraw.staticallyEvaluateForToPlay [] :=
  ⟨by decide, by decide, by decide,
   (iterativeDeepening_terminal_root toyTerminalDraw [] TT.empty (by decide)
      (by decide) (by decide)).1⟩

/-- C9: `solve_cmd` runs the whole iterative-deepening search on a copy of
the connection's board, so the live board — its stone configuration
(the state value itself), its side to move and its fingerprint — is
unchanged by a solve; only the transposition-table state carried in the
connection is updated from the copy afterwards. -/
theorem solve_preserves_live_board (O : GameOps S) (conn : Conn S) (b : Nat)
    (ov g : Bool) :
    (solveModel O conn b ov g).2.board = conn.board ∧
    O.current_player (solveModel O conn b ov g).2.board =
      O.current_player conn.board ∧
    O.hash (solveModel O conn b ov g).2.board = O.hash conn.board := by
  have hb : (solveModel O conn b ov g).2.board = conn.board := by
    simp only [solveModel]
    split
    · rfl
    · split
      · rfl
      · split
        · rfl
        · rfl
  exact ⟨hb, by rw [hb], by rw [hb]⟩

/-- C7, corrected: when the deadline fires before the search completes —
possible only with a nonzero budget, since `signal.alarm(0)` schedules no
alarm — `solve_cmd` answers "unknown" (suppressed during genmove) and
leaves the connection untouched; and when the search completes but the
transposition table has no entry for the live board's fingerprint, the
resulting failure is also surfaced as "unknown" (with the table already
updated).  A budget of 0 does not time out: the search runs to completion
and may report a decisive result — see the counterexample. -/
theorem solve_unknown_on_timeout_or_failure (O : GameOps S) (conn : Conn S)
    (b : Nat) (ov g : Bool) :
    (b ≠ 0 ∧ ov = true →
      solveModel O conn b ov g = ((if g then none else some "unknown"), conn)) ∧
    (¬(b ≠ 0 ∧ ov = true) →
      TT.lookup (iterativeDeepening O (O.copy conn.board) conn.tt).2.1
          (O.hash conn.board) = none →
      solveModel O conn b ov g =
        ((if g then none else some "unknown"),
         { board := conn.board,
           tt := (iterativeDeepening O (O.copy conn.board) conn.tt).2.1 })) := by
  constructor
  · intro h
    rw [solveModel, if_pos h]
  · intro h hlk
    rw [solveModel, if_neg h]
    simp only [hlk]

/-- C7, counterexample to the claim as stated: with time budget 0 the
alarm is never scheduled, so even a search that overruns any real deadline
completes and reports a decisive proven win ("b A0"), not "unknown". -/
theorem solve_zero_budget_decisive :
    (solveModel toyWin connEmpty 0 true false).1 = some "b A0" ∧
    (iterativeDeepening toyWin (toyWin.copy connEmpty.board) connEmpty.tt).1 = 5 ∧
    some "b A0" ≠ some "unknown" := by
  refine ⟨by decide, by decide, by decide⟩

/-- Witness for `solve_unknown_on_timeout_or_failure` at a concrete input:
budget 1 with an overrunning search yields "unknown" and an unchanged
connection. -/
theorem solve_unknown_witness :
    ((1 : Nat) ≠ 0 ∧ true = true) ∧
    solveModel toyQuiet connEmpty 1 true false = (some "unknown", connEmpty) :=
  ⟨⟨by decide, rfl⟩,
   (solve_unknown_on_timeout_or_failure toyQuiet connEmpty 1 true false).1
     ⟨by decide, rfl⟩⟩

/-- C3: for every state and time budget, a solve invocation's response has
exactly one of four shapes: a proven win (search result 5) reported for the
side to move with a recommended move ("b mv" / "w mv"); a proven loss
(search result -5) reported as a win for the opponent with no move ("w" /
"b"); a draw/heuristic result (anything else) reported as "draw" with a
recommended move; or "unknown" when the search times out or fails. -/
theorem solve_outcome_shapes (O : GameOps S) (conn : Conn S) (b : Nat) (ov : Bool)
    (hp : O.current_player conn.board = BLACK ∨
      O.current_player conn.board = WHITE) :
    ((iterativeDeepening O (O.copy conn.board) conn.tt).1 = 5 ∧
      ∃ mv, (solveModel O conn b ov false).1 =
        some ((if O.current_player conn.board = BLACK then "b " else "w ") ++ mv)) ∨
    ((iterativeDeepening O (O.copy conn.board) conn.tt).1 = -5 ∧
      (solveModel O conn b ov false).1 =
        some (if O.current_player conn.board = BLACK then "w" else "b")) ∨
    ((iterativeDeepening O (O.copy conn.board) conn.tt).1 ≠ 5 ∧
      (iterativeDeepening O (O.copy conn.board) conn.tt).1 ≠ -5 ∧
      ∃ mv, (solveModel O conn b ov false).1 = some ("draw " ++ mv)) ∨
    (solveModel O conn b ov false).1 = some "unknown" := by
  simp only [O.copy_eq]
  by_cases ht : b ≠ 0 ∧ ov = true
  · right; right; right
    rw [solveModel, if_pos ht]
    rfl
  · cases hlk : TT.lookup (iterativeDeepening O conn.board conn.tt).2.1
        (O.hash conn.board) with
    | none =>
      right; right; right
      rw [solveModel, if_neg ht]
      simp [O.copy_eq, hlk]
    | some entry =>
      cases hfp : format_point (point_to_coord entry.2 (O.size conn.board)) with
      | none =>
        right; right; right
        rw [solveModel, if_neg ht]
        simp [O.copy_eq, hlk, hfp]
      | some mv =>
        have hresp : (solveModel O conn b ov false).1 =
            some (if (iterativeDeepening O conn.board conn.tt).1 = 5 ∧
                O.current_player conn.board = BLACK then "b " ++ mv
              else if (iterativeDeepening O conn.board conn.tt).1 = 5 ∧
                O.current_player conn.board = WHITE then "w " ++ mv
              else if (iterativeDeepening O conn.board conn.tt).1 = -5 ∧
                O.current_player conn.board = BLACK then "w"
              else if (iterativeDeepening O conn.board conn.tt).1 = -5 ∧
                O.current_player conn.board = WHITE then "b"
              else "draw " ++ mv) := by
          rw [solveModel, if_neg ht]
          simp [O.copy_eq, hlk, hfp]
        by_cases h5 : (iterativeDeepening O conn.board conn.tt).1 = 5
        · left
          refine ⟨h5, mv, ?_⟩
          rcases hp with hb' | hw'
          · rw [hresp, if_pos ⟨h5, hb'⟩, if_pos hb']
          · rw [hresp,
              if_neg (by rintro ⟨_, hBx⟩; rw [hw'] at hBx; exact absurd hBx (by decide)),
              if_pos ⟨h5, hw'⟩, if_neg (by rw [hw']; decide)]
        · by_cases hm5 : (iterativeDeepening O conn.board conn.tt).1 = -5
          · right; left
            refine ⟨hm5, ?_⟩
            rcases hp with hb' | hw'
            · rw [hresp, if_neg (fun hh => h5 hh.1), if_neg (fun hh => h5 hh.1),
                if_pos ⟨hm5, hb'⟩, if_pos hb']
            · rw [hresp, if_neg (fun hh => h5 hh.1), if_neg (fun hh => h5 hh.1),
                if_neg (by rintro ⟨_, hBx⟩; rw [hw'] at hBx; exact absurd hBx (by decide)),
                if_pos ⟨hm5, hw'⟩, if_neg (by rw [hw']; decide)]
          · right; right; left
            refine ⟨h5, hm5, mv, ?_⟩
            rw [hresp, if_neg (fun hh => h5 hh.1), if_neg (fun hh => h5 hh.1),
              if_neg (fun hh => hm5 hh.1), if_neg (fun hh => hm5 hh.1)]

/-- Witness for `solve_outcome_shapes` at a concrete input: the one-move
winning toy scenario, black to move, budget 0. -/
theorem solve_outcome_shapes_witness :
    (toyWin.current_player connEmpty.board = BLACK ∨
     toyWin.current_player connEmpty.board = WHITE) ∧
    (((iterativeDeepening toyWin (toyWin.copy connEmpty.board) connEmpty.tt).1 = 5 ∧
      ∃ mv, (solveModel toyWin connEmpty 0 true false).1 =
        some ((if toyWin.current_player connEmpty.board = BLACK then "b " else "w ") ++ mv)) ∨
     ((iterativeDeepening toyWin (toyWin.copy connEmpty.board) connEmpty.tt).1 = -5 ∧
      (solveModel toyWin connEmpty 0 true false).1 =
        some (if toyWin.current_player connEmpty.board = BLACK then "w" else "b")) ∨
     ((iterativeDeepening toyWin (toyWin.copy connEmpty.board) connEmpty.tt).1 ≠ 5 ∧
      (iterativeDeepening toyWin (toyWin.copy connEmpty.board) connEmpty.tt).1 ≠ -5 ∧
      ∃ mv, (solveModel toyWin connEmpty 0 true false).1 = some ("draw " ++ mv)) ∨
     (solveModel toyWin connEmpty 0 true false).1 = some "unknown") :=
  ⟨Or.inl rfl, solve_outcome_shapes toyWin connEmpty 0 true (Or.inl rfl)⟩

set_option maxHeartbeats 4000000

/-- C10, corrected: for board sizes 2..MAXSIZE, formatting a coordinate
pair and parsing it back round-trips — with the column letter i skipped
consistently by both functions — for rows and columns up to 24, i.e.
strictly below MAXSIZE; both functions map PASS to "PASS" and back; and
`format_point` raises ValueError exactly on coordinates below 0 or at
least MAXSIZE (fourth conjunct: the rejection direction; fifth conjunct:
every pair with both coordinates in 0..MAXSIZE−1 is accepted).  In
particular coordinate 0 is accepted rather than rejected: the sixth and
seventh conjuncts show column 0 formatting as the letter Z by Python's
negative indexing.  The original claim fails at row = col = 25 on a
size-25 board: `format_point` rejects coordinate 25 (= MAXSIZE) even
though it is a legal board coordinate there (see the counterexample). -/
theorem format_move_round_trip :
    (∀ bs : Nat, 2 ≤ bs → bs ≤ 25 →
      ∀ row : Nat, 1 ≤ row → row ≤ bs →
      ∀ col : Nat, 1 ≤ col → col ≤ bs →
        row ≤ 24 → col ≤ 24 →
        (format_point (GtpMove.rc (row : Int) (col : Int))).isSome = true ∧
        move_to_coord ((format_point (GtpMove.rc (row : Int) (col : Int))).getD "") bs =
          some (GtpMove.rc (row : Int) (col : Int))) ∧
    (∀ bs : Nat, 2 ≤ bs → bs ≤ 25 → move_to_coord "PASS" bs = some GtpMove.pass) ∧
    format_point GtpMove.pass = some "PASS" ∧
    (∀ r c : Int, (MAXSIZE : Int) ≤ r ∨ (MAXSIZE : Int) ≤ c ∨ r < 0 ∨ c < 0 →
      format_point (GtpMove.rc r c) = none) ∧
    (∀ r c : Int, 0 ≤ r → r < (MAXSIZE : Int) → 0 ≤ c → c < (MAXSIZE : Int) →
      (format_point (GtpMove.rc r c)).isSome = true) ∧
    (∀ r : Int, 0 ≤ r → r < (MAXSIZE : Int) →
      format_point (GtpMove.rc r 0) = some (String.mk ['Z'] ++ toString r)) ∧
    format_point (GtpMove.rc 0 0) = some "Z0" := by
  refine ⟨by decide, by decide, rfl, ?_, ?_, ?_, by decide⟩
  · intro r c h
    have hM : ((MAXSIZE : Nat) : Int) = 25 := rfl
    rw [hM] at h
    simp only [format_point, hM]
    rw [if_neg]
    rintro ⟨h1, h2, h3, h4⟩
    omega
  · intro r c h1 h2 h3 h4
    simp only [format_point]
    rw [if_pos ⟨h1, h2, h3, h4⟩]
    rfl
  · intro r h1 h2
    simp only [format_point]
    rw [if_pos ⟨h1, h2, le_refl 0, by decide⟩]
    rfl

/-- C10, counterexample to the claim as stated: (row, col) = (25, 25) is
within range for board size 25 (which is within 2..MAXSIZE), yet
`format_point` raises ValueError on it, so the round trip fails. -/
theorem format_point_maxsize_counterexample :
    2 ≤ 25 ∧ (25 : Nat) ≤ MAXSIZE ∧ 1 ≤ 25 ∧ (25 : Nat) ≤ 25 ∧
    format_point (GtpMove.rc 25 25) = none := by decide

/-- Witness for `format_move_round_trip` at a concrete input: row 3,
column 9 (letter J, skipping I) on a size-19 board. -/
theorem format_move_round_trip_witness :
    move_to_coord ((format_point (GtpMove.rc 3 9)).getD "") 19 =
      some (GtpMove.rc 3 9) :=
  (format_move_round_trip.1 19 (by decide) (by decide) 3 (by decide) (by decide)
    9 (by decide) (by decide) (by decide) (by decide)).2

end Claims
